import Mathlib

/-!
Verification development for the compartmental SEIR simulation repository
(distancing.py). The reaction network, parameters, initial populations and
the distancing event are embedded from the source model definitions; the
simulation engine components (propensity-evaluation convention at boundary
states, direct-method stepper, trajectory recorder, seeded ensemble runner,
event scheduler) are modelled from the specification, since the repository
only declares the model and delegates stepping to external solver libraries.
Populations are integers, rates and times are rationals.
-/

namespace Distancing

/-- Species of the SEIR network, named as in the gillespy2 model declaration. -/
inductive Species where
  | susceptible
  | exposed
  | symptomatic
  | asymptomatic
  | infectious
  | cases
  | recovered
deriving DecidableEq, Fintype, Repr

/-- A population state: an integer count for each species. -/
abbrev Pop := Species → ℤ

/-- Source constant R0 = 2.4. -/
def R0 : ℚ := 12 / 5

/-- Source constant MEAN_INCUBATION_PERIOD = 4. -/
def MEAN_INCUBATION_PERIOD : ℚ := 4

/-- Source constant SYMPTOMATIC_FRACTION = 1/5. -/
def SYMPTOMATIC_FRACTION : ℚ := 1 / 5

/-- Source constant MEAN_INFECTIOUS_PERIOD = 6. -/
def MEAN_INFECTIOUS_PERIOD : ℚ := 6

/-- Source constant TOTAL_POPULATION = 10000. -/
def TOTAL_POPULATION : ℤ := 10000

/-- Source constant INITIAL_INFECTIOUS = 2. -/
def INITIAL_INFECTIOUS : ℤ := 2

/-- Initial populations from the source POPULATIONS dictionary:
S = 9998, E = 0, Y = 0, A = 0, I = 2, C = 2, R = 0. -/
def initPop : Pop
  | .susceptible  => TOTAL_POPULATION - INITIAL_INFECTIOUS
  | .exposed      => 0
  | .symptomatic  => 0
  | .asymptomatic => 0
  | .infectious   => INITIAL_INFECTIOUS
  | .cases        => INITIAL_INFECTIOUS
  | .recovered    => 0

/-- Rate parameter Ki = R0 / MEAN_INFECTIOUS_PERIOD = 2/5 (initial value). -/
def Ki0 : ℚ := R0 / MEAN_INFECTIOUS_PERIOD

/-- Rate parameter Ky = SYMPTOMATIC_FRACTION / MEAN_INCUBATION_PERIOD = 1/20. -/
def Ky : ℚ := SYMPTOMATIC_FRACTION / MEAN_INCUBATION_PERIOD

/-- Rate parameter Ka = (1 - SYMPTOMATIC_FRACTION) / MEAN_INCUBATION_PERIOD = 1/5. -/
def Ka : ℚ := (1 - SYMPTOMATIC_FRACTION) / MEAN_INCUBATION_PERIOD

/-- Rate parameter Kr = 1 / MEAN_INFECTIOUS_PERIOD = 1/6. -/
def Kr : ℚ := 1 / MEAN_INFECTIOUS_PERIOD

/-- Value assigned to Ki by the distancing event: 0.8 / MEAN_INFECTIOUS_PERIOD = 2/15. -/
def KiDistanced : ℚ := (4 / 5) / MEAN_INFECTIOUS_PERIOD

/-- The four reactions of the network, named as in the gillespy2 model. -/
inductive ReactionName where
  | transmission
  | transmissive_asymptomatic
  | transmissive_symptomatic
  | recovery
deriving DecidableEq, Fintype, Repr

/-- Reactant stoichiometry of each reaction, from the source declarations:
transmission consumes one susceptible, both progression reactions consume one
exposed, recovery consumes one infectious. -/
def reactants : ReactionName → Species → ℕ
  | .transmission, .susceptible => 1
  | .transmissive_asymptomatic, .exposed => 1
  | .transmissive_symptomatic, .exposed => 1
  | .recovery, .infectious => 1
  | _, _ => 0

/-- Product stoichiometry of each reaction, from the source declarations:
transmission produces one exposed; the asymptomatic progression produces one
asymptomatic, one infectious and one cases; the symptomatic progression
produces one symptomatic, one infectious and one cases; recovery produces one
recovered. -/
def products : ReactionName → Species → ℕ
  | .transmission, .exposed => 1
  | .transmissive_asymptomatic, .asymptomatic => 1
  | .transmissive_asymptomatic, .infectious => 1
  | .transmissive_asymptomatic, .cases => 1
  | .transmissive_symptomatic, .symptomatic => 1
  | .transmissive_symptomatic, .infectious => 1
  | .transmissive_symptomatic, .cases => 1
  | .recovery, .recovered => 1
  | _, _ => 0

/-- Applying a reaction's stoichiometry to a population state: each species
loses its reactant coefficient and gains its product coefficient. -/
def applyReaction (r : ReactionName) (p : Pop) : Pop :=
  fun sp => p sp - (reactants r sp : ℤ) + (products r sp : ℤ)

/-- The denominator of the transmission propensity expression in the source:
susceptible + exposed + infectious + recovered. -/
def seirTotal (p : Pop) : ℤ :=
  p .susceptible + p .exposed + p .infectious + p .recovered

/-- The sum S + E + Y + A + I + R of all compartments except cumulative cases. -/
def sumAlive (p : Pop) : ℤ :=
  p .susceptible + p .exposed + p .symptomatic + p .asymptomatic +
    p .infectious + p .recovered

/-- Propensity of each reaction, from the source rate declarations:
transmission has the expression Ki * susceptible * infectious /
(susceptible + exposed + infectious + recovered); the others are mass-action
with rates Ka, Ky and Kr. Modelled from the spec: the evaluation convention
returning zero when the transmission denominator is zero is engine policy
(section 4.2 zero-on-undefined), not present in the repository source. -/
def propensity (ki : ℚ) (p : Pop) : ReactionName → ℚ
  | .transmission =>
      if seirTotal p = 0 then 0
      else ki * (p .susceptible : ℚ) * (p .infectious : ℚ) / (seirTotal p : ℚ)
  | .transmissive_asymptomatic => Ka * (p .exposed : ℚ)
  | .transmissive_symptomatic => Ky * (p .exposed : ℚ)
  | .recovery => Kr * (p .infectious : ℚ)

/-- A realization state: the population vector together with the one mutable
rate parameter Ki (the only quantity the distancing event assigns to). -/
structure RState where
  pop : Pop
  ki : ℚ
deriving DecidableEq

/-- The initial realization state: source initial populations and Ki = 2/5. -/
def initState : RState := ⟨initPop, Ki0⟩

/-- One transition of a realization under the exact algorithm: either a
reaction with strictly positive propensity fires and its stoichiometry is
applied, or the distancing event fires and assigns Ki its new value 2/15
(events assign no species). -/
inductive Step : RState → RState → Prop where
  | react (r : ReactionName) (rs : RState)
      (h : 0 < propensity rs.ki rs.pop r) :
      Step rs ⟨applyReaction r rs.pop, rs.ki⟩
  | event (rs : RState) : Step rs ⟨rs.pop, KiDistanced⟩

/-- A state is reachable when a finite sequence of reaction firings and event
firings leads to it from the initial state. -/
def Reachable (rs : RState) : Prop :=
  Relation.ReflTransGen Step initState rs

/-- Every species count is non-negative. -/
def NonnegPop (p : Pop) : Prop := ∀ sp, 0 ≤ p sp

/-- Modelled from the spec: direct (non-leaping) stoichiometric application
of section 4.4; it fails with NegativePopulationError exactly when some
species count would become negative, and on success returns exactly the
applied stoichiometry (no clamping). This engine behavior lives in the
external solver libraries, not in the repository source. -/
def applyDirect (r : ReactionName) (p : Pop) : Except String Pop :=
  if ∀ sp, 0 ≤ applyReaction r p sp then Except.ok (applyReaction r p)
  else Except.error "NegativePopulationError"

/-- Sum a0 of all four reaction propensities in a realization state. -/
def a0 (rs : RState) : ℚ :=
  propensity rs.ki rs.pop .transmission +
    propensity rs.ki rs.pop .transmissive_asymptomatic +
    propensity rs.ki rs.pop .transmissive_symptomatic +
    propensity rs.ki rs.pop .recovery

/-- Modelled from the spec: cumulative-sum selection of the reaction fired
by the direct method from a uniform draw u scaled by the total propensity,
ties broken by iteration order of the four reactions. -/
def selectReaction (rs : RState) (u : ℚ) : ReactionName :=
  let c1 := propensity rs.ki rs.pop .transmission
  let c2 := c1 + propensity rs.ki rs.pop .transmissive_asymptomatic
  let c3 := c2 + propensity rs.ki rs.pop .transmissive_symptomatic
  if u * a0 rs ≤ c1 then .transmission
  else if u * a0 rs ≤ c2 then .transmissive_asymptomatic
  else if u * a0 rs ≤ c3 then .transmissive_symptomatic
  else .recovery

/-- The distancing trigger expression from the source: symptomatic > 100. -/
def siaTrigger (y : ℤ) : Bool := 100 < y

/-- The full per-iteration state of one realization of the stepper: the
realization state, the current time, the last observed trigger value, the
jump records emitted so far, and the number of reactions fired so far. -/
structure SimState where
  rs : RState
  time : ℚ
  prevTrig : Bool
  jumps : List (ℚ × Pop)
  firedCount : ℕ

/-- Modelled from the spec (sections 4.3 and 4.4): one iteration of the
direct-method stepper with event handling. If the total propensity a0 is
zero the state is absorbing and time advances directly to the end time T;
otherwise the waiting-time draw advances the clock, and if the horizon is
not passed, one reaction is selected and fired, a jump record is emitted,
and the trigger edge is re-evaluated against the post-reaction state. The
draw is a pair (waiting time, uniform selection number). -/
def stepSim (T : ℚ) (draw : ℚ × ℚ) (st : SimState) : SimState :=
  if a0 st.rs = 0 then { st with time := T }
  else
    let t' := st.time + draw.1
    if T ≤ t' then { st with time := T }
    else
      let r := selectReaction st.rs draw.2
      let p' := applyReaction r st.rs.pop
      let trig := siaTrigger (p' .symptomatic)
      let ki' := if trig && !st.prevTrig then KiDistanced else st.rs.ki
      { rs := ⟨p', ki'⟩, time := t', prevTrig := trig,
        jumps := st.jumps ++ [(t', p')], firedCount := st.firedCount + 1 }

/-- Modelled from the spec: the per-realization stepping loop, iterating
stepSim while the current time is below the end time T, with a fuel bound;
draws is the realization's private stream of random numbers and k indexes
the next draw. -/
def runSim (T : ℚ) (draws : ℕ → ℚ × ℚ) : ℕ → ℕ → SimState → SimState
  | 0, _, st => st
  | fuel + 1, k, st =>
      if T ≤ st.time then st
      else runSim T draws fuel (k + 1) (stepSim T (draws k) st)

/-- Modelled from the spec: the Trajectory Recorder value at one sample time
t, namely the value of the last jump record with time at most t, or the
initial value when no record qualifies (last-value-held-constant). -/
def recordAt (init : Pop) (jumps : List (ℚ × Pop)) (t : ℚ) : Pop :=
  jumps.foldl (fun acc j => if j.1 ≤ t then j.2 else acc) init

/-- Modelled from the spec: the Trajectory Recorder, producing one recorded
value per sample time of the fixed grid. -/
def resample (init : Pop) (jumps : List (ℚ × Pop)) (grid : List ℚ) : List Pop :=
  grid.map (recordAt init jumps)

/-- Source constant END_TIME = 180 as a rational time. -/
def endTime : ℚ := 180

/-- The fixed sample grid of the source: 181 unit-spaced sample times 0..180. -/
def sampleGrid : List ℚ := (List.range 181).map (fun n => (n : ℚ))

/-- Source constant REALIZATIONS = 10. -/
def REALIZATIONS : ℕ := 10

/-- Fuel bound for the stepping loop of one realization. -/
def SIM_FUEL : ℕ := 1000000

/-- The initial stepper state of a realization: initial populations, Ki at
its initial value, time 0, trigger last seen false, no jumps, no firings. -/
def initSim : SimState := ⟨initState, 0, false, [], 0⟩

/-- Modelled from the spec: a 64-bit linear congruential pseudo-random step;
all arithmetic is taken mod 2 to the 64. -/
def lcg (s : ℕ) : ℕ := (6364136223846793005 * s + 1442695040888963407) % (2 ^ 64)

/-- Modelled from the spec: deterministic derivation of the private seed of
realization i from the overall seed (never shared across realizations). -/
def deriveSeed (seed i : ℕ) : ℕ := lcg ((seed + 11400714819323198485 * i) % (2 ^ 64))

/-- Modelled from the spec: the private random draw stream of one
realization, produced by iterating the congruential step from its seed. -/
def drawStream (seed : ℕ) (k : ℕ) : ℚ × ℚ :=
  let s1 := Nat.iterate lcg (2 * k + 1) seed
  let s2 := Nat.iterate lcg (2 * k + 2) seed
  (((s1 % 1000 + 1 : ℕ) : ℚ) / 1000, ((s2 % 4096 : ℕ) : ℚ) / 4096)

/-- Modelled from the spec: one full realization driven by the private draw
stream of the given seed, its jump records resampled onto the fixed grid. -/
def realize (seed : ℕ) : List Pop :=
  resample initPop (runSim endTime (drawStream seed) SIM_FUEL 0 initSim).jumps sampleGrid

/-- Modelled from the spec: the Ensemble Runner, deriving each realization's
private seed deterministically from the overall seed and running the
realizations independently. -/
def runEnsemble (seed : ℕ) : List (List Pop) :=
  (List.range REALIZATIONS).map (fun i => realize (deriveSeed seed i))

/-- The distancing event declaration from the source: trigger expression
symptomatic > 100, trigger initial value false, persistent true, delay 0,
and one assignment setting Ki to 0.8 / MEAN_INFECTIOUS_PERIOD. -/
structure EventDecl where
  initial_value : Bool
  persistent : Bool
  delay : ℚ
  assignedKi : ℚ

/-- The sia distancing event as declared in the source (gillespy2 model). -/
def siaEvent : EventDecl :=
  { initial_value := false, persistent := true, delay := 0, assignedKi := KiDistanced }

/-- The per-realization state of the Event Scheduler for the one event: the
last observed trigger value, whether the event has already fired, and the
current value of the parameter Ki. -/
structure SchedState where
  prev : Bool
  hasFired : Bool
  ki : ℚ

/-- The initial scheduler state: trigger at its declared initial value,
event not yet fired, Ki at its initial value 2/5. -/
def initSched : SchedState := ⟨siaEvent.initial_value, false, Ki0⟩

/-- Modelled from the spec (data-model event invariant): the event fires at
an evaluation point when its trigger transitions false to true, unless it
has already fired and is not persistent (persistence permits re-arming). -/
def schedFires (ev : EventDecl) (st : SchedState) (y : ℤ) : Bool :=
  siaTrigger y && !st.prev && (ev.persistent || !st.hasFired)

/-- Modelled from the spec (section 4.3): one evaluation point of the Event
Scheduler; firing applies the assignment to Ki. Returns the new state and
whether the event fired at this evaluation point. -/
def schedStep (ev : EventDecl) (st : SchedState) (y : ℤ) : SchedState × Bool :=
  (⟨siaTrigger y, st.hasFired || schedFires ev st y,
    if schedFires ev st y then ev.assignedKi else st.ki⟩, schedFires ev st y)

/-- Total number of times the event fires along a sequence of observed
symptomatic populations. -/
def schedFireCount (ev : EventDecl) : SchedState → List ℤ → ℕ
  | _, [] => 0
  | st, y :: ys =>
      (if (schedStep ev st y).2 then 1 else 0) +
        schedFireCount ev (schedStep ev st y).1 ys

/-- The series of Ki values held after each evaluation point, from a given
scheduler state. -/
def kiTraceFrom (ev : EventDecl) : SchedState → List ℤ → List ℚ
  | _, [] => []
  | st, y :: ys => ((schedStep ev st y).1).ki :: kiTraceFrom ev (schedStep ev st y).1 ys

/-- The full Ki series of a realization whose symptomatic population takes
the given values at the successive evaluation points, starting from the
initial value of Ki. -/
def kiTrace (ys : List ℤ) : List ℚ := Ki0 :: kiTraceFrom siaEvent initSched ys

/-- Number of changes of value along a series (adjacent unequal pairs). -/
def countChanges : List ℚ → ℕ
  | [] => 0
  | [_] => 0
  | a :: b :: rest => (if a = b then 0 else 1) + countChanges (b :: rest)

/-- Modelled from the spec: the boundary-scenario model of one species S
with a single mass-action reaction consuming one S at rate k. -/
def singlePropensity (k : ℚ) (s : ℤ) : ℚ := k * s

/-- The stepper state of the boundary scenario: the count of S, the current
time, and the jump records emitted so far. -/
structure SingleSim where
  s : ℤ
  time : ℚ
  jumps : List (ℚ × ℤ)

/-- Modelled from the spec: one direct-method iteration of the boundary
scenario; q is the net change of S produced by one firing beyond the one
consumed reactant. If the propensity is zero the state is absorbing. -/
def stepSingle (k : ℚ) (q : ℤ) (T : ℚ) (draw : ℚ) (st : SingleSim) : SingleSim :=
  if singlePropensity k st.s = 0 then { st with time := T }
  else
    let t' := st.time + draw
    if T ≤ t' then { st with time := T }
    else
      let s' := st.s - 1 + q
      { s := s', time := t', jumps := st.jumps ++ [(t', s')] }

/-- Modelled from the spec: the stepping loop of the boundary scenario. -/
def runSingle (k : ℚ) (q : ℤ) (T : ℚ) (draws : ℕ → ℚ) : ℕ → ℕ → SingleSim → SingleSim
  | 0, _, st => st
  | fuel + 1, j, st =>
      if T ≤ st.time then st
      else runSingle k q T draws fuel (j + 1) (stepSingle k q T (draws j) st)

/-- The state reached after firing the transmission reaction once from the
initial state (one susceptible becomes exposed). -/
def stateAfterTransmission : RState := ⟨applyReaction .transmission initPop, Ki0⟩

/-- Example jump values for the resampling scenario: the initial population,
the population after transmission, and the population after a subsequent
asymptomatic progression. -/
def exP1 : Pop := applyReaction .transmission initPop

/-- Second example jump value: exP1 after one asymptomatic progression. -/
def exP2 : Pop := applyReaction .transmissive_asymptomatic exP1

/-- Example jump records at times 0, 2.3 and 5.1 from the specification's
resampling scenario. -/
def exJumps : List (ℚ × Pop) := [(0, initPop), (23 / 10, exP1), (51 / 10, exP2)]

/-- Example sample grid 0..6 from the specification's resampling scenario. -/
def exGrid : List ℚ := [0, 1, 2, 3, 4, 5, 6]

lemma seirTotal_applyReaction (r : ReactionName) (p : Pop) :
    seirTotal (applyReaction r p) = seirTotal p := by
  cases r <;> simp [seirTotal, applyReaction, reactants, products] <;> ring

lemma seirTotal_initPop : seirTotal initPop = 10000 := by decide

/-- Positive propensity of a reaction forces its reactant species to be
present (at least one copy), for non-negative populations. -/
lemma reactant_pos_of_propensity_pos {ki : ℚ} {p : Pop} {r : ReactionName}
    (hp : NonnegPop p) (h : 0 < propensity ki p r) :
    ∀ sp, (reactants r sp : ℤ) ≤ p sp := by
  intro sp
  cases r with
  | transmission =>
      by_cases hd : seirTotal p = 0
      · simp [propensity, hd] at h
      · simp only [propensity, if_neg hd] at h
        have hSI : (0 : ℚ) < (p .susceptible : ℚ) * (p .infectious : ℚ) := by
          rcases lt_trichotomy ((p .susceptible : ℚ) * (p .infectious : ℚ)) 0 with hlt | heq | hgt
          · exact absurd hlt (not_lt.mpr (mul_nonneg (by exact_mod_cast hp .susceptible)
              (by exact_mod_cast hp .infectious)))
          · rw [mul_assoc, heq, mul_zero, zero_div] at h
            exact absurd h (lt_irrefl 0)
          · exact hgt
        have hS : (0 : ℤ) < p .susceptible := by
          rcases (hp .susceptible).lt_or_eq with hlt | heq
          · exact hlt
          · exfalso
            rw [← heq] at hSI
            simp at hSI
        have h0 := hp sp
        cases sp <;> simp [reactants] <;> omega
  | transmissive_asymptomatic =>
      have hE : (0 : ℤ) < p .exposed := by
        by_contra hc
        push_neg at hc
        have : p .exposed = 0 := le_antisymm hc (hp .exposed)
        simp [propensity, this] at h
      have h0 := hp sp
      cases sp <;> simp [reactants] <;> omega
  | transmissive_symptomatic =>
      have hE : (0 : ℤ) < p .exposed := by
        by_contra hc
        push_neg at hc
        have : p .exposed = 0 := le_antisymm hc (hp .exposed)
        simp [propensity, this] at h
      have h0 := hp sp
      cases sp <;> simp [reactants] <;> omega
  | recovery =>
      have hI : (0 : ℤ) < p .infectious := by
        by_contra hc
        push_neg at hc
        have : p .infectious = 0 := le_antisymm hc (hp .infectious)
        simp [propensity, this] at h
      have h0 := hp sp
      cases sp <;> simp [reactants] <;> omega

/-- Applying a reaction whose reactants are available preserves
non-negativity of every species count. -/
lemma nonneg_applyReaction {r : ReactionName} {p : Pop}
    (hp : NonnegPop p) (hr : ∀ sp, (reactants r sp : ℤ) ≤ p sp) :
    NonnegPop (applyReaction r p) := by
  intro sp
  have h1 := hr sp
  have h2 := hp sp
  simp only [applyReaction]
  have : (0 : ℤ) ≤ (products r sp : ℤ) := Int.natCast_nonneg _
  omega

/-- The reachability invariant: populations stay non-negative and the
transmission denominator stays at its initial value 10000. -/
lemma reachable_invariant {rs : RState} (h : Reachable rs) :
    NonnegPop rs.pop ∧ seirTotal rs.pop = 10000 := by
  induction h with
  | refl =>
      constructor
      · intro sp
        cases sp <;> decide
      · exact seirTotal_initPop
  | tail _ hstep ih =>
      rcases ih with ⟨hnn, htot⟩
      cases hstep with
      | react r rs h =>
          refine ⟨nonneg_applyReaction hnn (reactant_pos_of_propensity_pos hnn h), ?_⟩
          rw [seirTotal_applyReaction, htot]
      | event rs =>
          exact ⟨hnn, htot⟩

lemma cases_le_applyReaction (r : ReactionName) (p : Pop) :
    p .cases ≤ applyReaction r p .cases := by
  cases r <;> simp [applyReaction, reactants, products]

lemma propensity_transmission_pos : 0 < propensity Ki0 initPop .transmission := by
  norm_num [propensity, seirTotal, initPop, Ki0, R0, MEAN_INFECTIOUS_PERIOD,
    TOTAL_POPULATION, INITIAL_INFECTIOUS]

/-- C9: firing any of the four reactions leaves the sum S + E + I + R
unchanged, hence the denominator of the transmission propensity equals its
initial value 10000 in every reachable state of a realization (events assign
only to the parameter Ki, never to a species). -/
theorem seir_sum_reaction_invariant :
    (∀ (r : ReactionName) (p : Pop), seirTotal (applyReaction r p) = seirTotal p) ∧
    (∀ rs : RState, Reachable rs → seirTotal rs.pop = 10000) :=
  ⟨seirTotal_applyReaction, fun _ h => (reachable_invariant h).2⟩

/-- Witness for C9 at concrete inputs: the transmission reaction applied to
the initial populations, and the initial state itself. -/
theorem seir_sum_reaction_invariant_witness :
    seirTotal (applyReaction .transmission initPop) = seirTotal initPop ∧
    seirTotal initState.pop = 10000 :=
  ⟨seir_sum_reaction_invariant.1 .transmission initPop,
   seir_sum_reaction_invariant.2 initState Relation.ReflTransGen.refl⟩

/-- C1 counterexample: the state reached by one transmission firing is
reachable, the asymptomatic-progression reaction has positive propensity
there, yet firing it raises the sum S + E + Y + A + I + R from 10000 to
10001 — the sum is not invariant across every jump. -/
theorem sumAlive_not_invariant_counterexample :
    Reachable stateAfterTransmission ∧
    0 < propensity stateAfterTransmission.ki stateAfterTransmission.pop
        .transmissive_asymptomatic ∧
    sumAlive stateAfterTransmission.pop = 10000 ∧
    sumAlive (applyReaction .transmissive_asymptomatic stateAfterTransmission.pop) = 10001 := by
  refine ⟨?_, ?_, by decide, by decide⟩
  · exact Relation.ReflTransGen.single
      (Step.react .transmission initState propensity_transmission_pos)
  · norm_num [stateAfterTransmission, propensity, applyReaction, reactants, products,
      initPop, Ka, SYMPTOMATIC_FRACTION, MEAN_INCUBATION_PERIOD]

/-- C1 amended: in every reachable state of a realization the sum
S + E + I + R (the total alive population, excluding the bookkeeping
compartments Y, A and the cumulative counter C) is unchanged by every
reaction firing and equals its initial value 10000. -/
theorem seir_sum_invariant_amended :
    ∀ rs : RState, Reachable rs →
      (∀ r : ReactionName, seirTotal (applyReaction r rs.pop) = seirTotal rs.pop) ∧
      seirTotal rs.pop = 10000 :=
  fun _ h => ⟨fun r => seirTotal_applyReaction r _, (reachable_invariant h).2⟩

/-- Witness for the amended C1 at the initial state. -/
theorem seir_sum_invariant_amended_witness :
    (∀ r : ReactionName, seirTotal (applyReaction r initState.pop) = seirTotal initState.pop) ∧
    seirTotal initState.pop = 10000 :=
  seir_sum_invariant_amended initState Relation.ReflTransGen.refl

/-- C2: propensity evaluation is total (it is a function), returns a
non-negative value for every reaction in every non-negative state, returns
exactly zero whenever some required reactant population is below its
stoichiometric requirement, and the transmission propensity is zero whenever
its denominator S + E + I + R is zero. -/
theorem propensity_total_nonneg_zero :
    ∀ (ki : ℚ) (p : Pop), NonnegPop p → 0 ≤ ki →
      (∀ r, 0 ≤ propensity ki p r) ∧
      (∀ r, (∃ sp, p sp < (reactants r sp : ℤ)) → propensity ki p r = 0) ∧
      (seirTotal p = 0 → propensity ki p .transmission = 0) := by
  intro ki p hp hki
  have hcast : ∀ sp, (0 : ℚ) ≤ (p sp : ℚ) := fun sp => by exact_mod_cast hp sp
  refine ⟨?_, ?_, ?_⟩
  · intro r
    cases r with
    | transmission =>
        by_cases hd : seirTotal p = 0
        · simp [propensity, hd]
        · have hdpos : (0 : ℤ) < seirTotal p := by
            have h1 : (0 : ℤ) ≤ seirTotal p := by
              have := hp .susceptible
              have := hp .exposed
              have := hp .infectious
              have := hp .recovered
              simp only [seirTotal]
              omega
            omega
          simp only [propensity, if_neg hd]
          apply div_nonneg
          · exact mul_nonneg (mul_nonneg hki (hcast .susceptible)) (hcast .infectious)
          · exact_mod_cast le_of_lt hdpos
    | transmissive_asymptomatic =>
        exact mul_nonneg (by norm_num [Ka, SYMPTOMATIC_FRACTION, MEAN_INCUBATION_PERIOD])
          (hcast .exposed)
    | transmissive_symptomatic =>
        exact mul_nonneg (by norm_num [Ky, SYMPTOMATIC_FRACTION, MEAN_INCUBATION_PERIOD])
          (hcast .exposed)
    | recovery =>
        exact mul_nonneg (by norm_num [Kr, MEAN_INFECTIOUS_PERIOD]) (hcast .infectious)
  · rintro r ⟨sp, hsp⟩
    have h0 := hp sp
    cases r with
    | transmission =>
        cases sp <;> simp [reactants] at hsp <;> try omega
        have hS : p .susceptible = 0 := by omega
        simp [propensity, hS]
    | transmissive_asymptomatic =>
        cases sp <;> simp [reactants] at hsp <;> try omega
        have hE : p .exposed = 0 := by omega
        simp [propensity, hE]
    | transmissive_symptomatic =>
        cases sp <;> simp [reactants] at hsp <;> try omega
        have hE : p .exposed = 0 := by omega
        simp [propensity, hE]
    | recovery =>
        cases sp <;> simp [reactants] at hsp <;> try omega
        have hI : p .infectious = 0 := by omega
        simp [propensity, hI]
  · intro hd
    simp [propensity, hd]

/-- Witness for C2 at concrete inputs: with the initial populations and the
initial Ki, the transmission propensity is non-negative; and since no
exposed individual is present initially, the asymptomatic-progression
propensity is exactly zero. -/
theorem propensity_total_nonneg_zero_witness :
    0 ≤ propensity Ki0 initPop .transmission ∧
    propensity Ki0 initPop .transmissive_asymptomatic = 0 := by
  have h := propensity_total_nonneg_zero Ki0 initPop
    (fun sp => by cases sp <;> decide)
    (by norm_num [Ki0, R0, MEAN_INFECTIOUS_PERIOD])
  exact ⟨h.1 .transmission, h.2.1 .transmissive_asymptomatic ⟨.exposed, by decide⟩⟩

/-- C3: under the exact algorithm every reachable population is
non-negative; applying a reaction selected with positive propensity from a
non-negative state succeeds and yields a non-negative state; and direct
application reports NegativePopulationError exactly when some resulting
count would be negative, returning the unclamped stoichiometric result
otherwise. -/
theorem exact_no_negative_population :
    (∀ rs : RState, Reachable rs → ∀ sp, 0 ≤ rs.pop sp) ∧
    (∀ (ki : ℚ) (p : Pop) (r : ReactionName), NonnegPop p →
      0 < propensity ki p r →
      applyDirect r p = Except.ok (applyReaction r p) ∧
      NonnegPop (applyReaction r p)) ∧
    (∀ (r : ReactionName) (p : Pop),
      applyDirect r p = Except.error "NegativePopulationError" ↔
        ∃ sp, applyReaction r p sp < 0) := by
  refine ⟨fun rs h => (reachable_invariant h).1, ?_, ?_⟩
  · intro ki p r hp hprop
    have hnn : NonnegPop (applyReaction r p) :=
      nonneg_applyReaction hp (reactant_pos_of_propensity_pos hp hprop)
    have h' : ∀ sp, 0 ≤ applyReaction r p sp := hnn
    constructor
    · unfold applyDirect
      rw [if_pos h']
    · exact hnn
  · intro r p
    by_cases h : ∀ sp, 0 ≤ applyReaction r p sp
    · simp only [applyDirect, if_pos h]
      constructor
      · intro hc
        exact Except.noConfusion hc
      · rintro ⟨sp, hsp⟩
        exact absurd (h sp) (not_le.mpr hsp)
    · simp only [applyDirect, if_neg h]
      push_neg at h
      exact ⟨fun _ => h, fun _ => trivial⟩

/-- Witness for C3 at concrete inputs: the initial state is reachable with
the susceptible count non-negative; firing transmission from the initial
populations succeeds with a non-negative result; and the error
characterization instantiated at the recovery reaction and the initial
populations. -/
theorem exact_no_negative_population_witness :
    (0 ≤ initState.pop Species.susceptible) ∧
    (applyDirect .transmission initPop = Except.ok (applyReaction .transmission initPop) ∧
      NonnegPop (applyReaction .transmission initPop)) ∧
    (applyDirect .recovery initPop = Except.error "NegativePopulationError" ↔
      ∃ sp, applyReaction .recovery initPop sp < 0) :=
  ⟨exact_no_negative_population.1 initState Relation.ReflTransGen.refl .susceptible,
   exact_no_negative_population.2.1 Ki0 initPop .transmission
     (fun sp => by cases sp <;> decide) propensity_transmission_pos,
   exact_no_negative_population.2.2 .recovery initPop⟩

/-- C10: the cumulative-cases species appears with zero coefficient among
the reactants of every reaction, every single firing does not decrease it,
and along every finite sequence of reaction and event firings the cases
count is monotonically non-decreasing. -/
theorem cases_monotone :
    (∀ r : ReactionName, reactants r .cases = 0) ∧
    (∀ (r : ReactionName) (p : Pop), p .cases ≤ applyReaction r p .cases) ∧
    (∀ rs rs' : RState, Relation.ReflTransGen Step rs rs' →
      rs.pop .cases ≤ rs'.pop .cases) := by
  refine ⟨fun r => by cases r <;> rfl, cases_le_applyReaction, ?_⟩
  intro rs rs' h
  induction h with
  | refl => exact le_refl _
  | tail _ hstep ih =>
      refine le_trans ih ?_
      cases hstep with
      | react r rs h => exact cases_le_applyReaction _ _
      | event rs => exact le_refl _

/-- Witness for C10 at concrete inputs: the transmission reaction, the
initial populations, and the one-step firing sequence consisting of the
transmission reaction from the initial state. -/
theorem cases_monotone_witness :
    reactants ReactionName.transmission .cases = 0 ∧
    initPop .cases ≤ applyReaction .transmission initPop .cases ∧
    initState.pop .cases ≤ stateAfterTransmission.pop .cases :=
  ⟨cases_monotone.1 .transmission,
   cases_monotone.2.1 .transmission initPop,
   cases_monotone.2.2 initState stateAfterTransmission
     (Relation.ReflTransGen.single
       (Step.react .transmission initState propensity_transmission_pos))⟩

/-- C4: when the total propensity a0 of a realization state is zero, the
direct-method stepper advances the realization's time directly to the
configured end time T and fires no further reactions for the rest of the
realization: the realization state, the fired-reaction count and the jump
records are all unchanged at the end of the run. -/
theorem absorbing_state_advances_to_end :
    ∀ (T : ℚ) (draws : ℕ → ℚ × ℚ) (k fuel : ℕ) (st : SimState),
      a0 st.rs = 0 → st.time ≤ T → 1 ≤ fuel →
      (runSim T draws fuel k st).rs = st.rs ∧
      (runSim T draws fuel k st).time = T ∧
      (runSim T draws fuel k st).firedCount = st.firedCount ∧
      (runSim T draws fuel k st).jumps = st.jumps := by
  intro T draws k fuel st h0 hle hfuel
  cases fuel with
  | zero => omega
  | succ n =>
      by_cases ht : T ≤ st.time
      · have heq : st.time = T := le_antisymm hle ht
        simp [runSim, ht, heq]
      · have hstep : stepSim T (draws k) st = { st with time := T } := by
          simp [stepSim, h0]
        cases n with
        | zero => simp [runSim, ht, hstep]
        | succ m => simp [runSim, ht, hstep]

/-- Witness for C4 at concrete inputs: the fully absorbed state with every
population zero at time 0, end time 180, one unit of fuel. -/
theorem absorbing_state_advances_to_end_witness :
    (runSim 180 (fun _ => (1, 0)) 1 0 ⟨⟨fun _ => 0, Ki0⟩, 0, false, [], 0⟩).rs
        = (⟨⟨fun _ => 0, Ki0⟩, 0, false, [], 0⟩ : SimState).rs ∧
    (runSim 180 (fun _ => (1, 0)) 1 0 ⟨⟨fun _ => 0, Ki0⟩, 0, false, [], 0⟩).time = 180 ∧
    (runSim 180 (fun _ => (1, 0)) 1 0 ⟨⟨fun _ => 0, Ki0⟩, 0, false, [], 0⟩).firedCount = 0 ∧
    (runSim 180 (fun _ => (1, 0)) 1 0 ⟨⟨fun _ => 0, Ki0⟩, 0, false, [], 0⟩).jumps = [] :=
  absorbing_state_advances_to_end 180 (fun _ => (1, 0)) 0 1
    ⟨⟨fun _ => 0, Ki0⟩, 0, false, [], 0⟩
    (by simp [a0, propensity, seirTotal])
    (by norm_num) (le_refl 1)

/-- C6: in the boundary scenario of a single species S with initial count 0
and one reaction consuming one S, every realization over any horizon leaves
the trajectory unchanged: the count stays 0, no jump record is emitted, the
clock reaches the end time, and the propensity is zero throughout (the
state never changes, so the propensity at every step is the propensity at
count 0, which is zero). -/
theorem boundary_single_species_frozen :
    ∀ (k : ℚ) (q : ℤ) (T : ℚ) (draws : ℕ → ℚ) (fuel j : ℕ) (t : ℚ),
      t ≤ T → 1 ≤ fuel →
      (runSingle k q T draws fuel j ⟨0, t, []⟩).s = 0 ∧
      (runSingle k q T draws fuel j ⟨0, t, []⟩).jumps = [] ∧
      (runSingle k q T draws fuel j ⟨0, t, []⟩).time = T ∧
      singlePropensity k 0 = 0 := by
  intro k q T draws fuel j t hle hfuel
  have hprop : singlePropensity k (0 : ℤ) = 0 := by
    simp [singlePropensity]
  cases fuel with
  | zero => omega
  | succ n =>
      by_cases ht : T ≤ t
      · have heq : t = T := le_antisymm hle ht
        refine ⟨?_, ?_, ?_, hprop⟩ <;> simp [runSingle, ht, heq]
      · have hstep : stepSingle k q T (draws j) ⟨0, t, []⟩ = ⟨0, T, []⟩ := by
          simp [stepSingle, hprop]
        cases n with
        | zero =>
            refine ⟨?_, ?_, ?_, hprop⟩ <;> simp [runSingle, ht, hstep]
        | succ m =>
            refine ⟨?_, ?_, ?_, hprop⟩ <;> simp [runSingle, ht, hstep]

/-- Witness for C6 at concrete inputs: rate 1, net product change 0,
horizon 5, start time 0, two units of fuel. -/
theorem boundary_single_species_frozen_witness :
    (runSingle 1 0 5 (fun _ => 1) 2 0 ⟨0, 0, []⟩).s = 0 ∧
    (runSingle 1 0 5 (fun _ => 1) 2 0 ⟨0, 0, []⟩).jumps = [] ∧
    (runSingle 1 0 5 (fun _ => 1) 2 0 ⟨0, 0, []⟩).time = 5 ∧
    singlePropensity 1 0 = 0 :=
  boundary_single_species_frozen 1 0 5 (fun _ => 1) 2 0 0 (by norm_num) (by norm_num)

lemma recordAt_cons (init : Pop) (j : ℚ × Pop) (rest : List (ℚ × Pop)) (t : ℚ) :
    recordAt init (j :: rest) t = recordAt (if j.1 ≤ t then j.2 else init) rest t :=
  rfl

lemma recordAt_eq_filter_getLastD (t : ℚ) :
    ∀ (jumps : List (ℚ × Pop)) (init : Pop),
      recordAt init jumps t =
        ((jumps.filter (fun j => j.1 ≤ t)).map Prod.snd).getLastD init := by
  intro jumps
  induction jumps with
  | nil => intro init; rfl
  | cons j rest ih =>
      intro init
      rw [recordAt_cons]
      by_cases hj : j.1 ≤ t
      · rw [if_pos hj, ih j.2]
        have hfil : List.filter (fun j => decide (j.1 ≤ t)) (j :: rest) =
            j :: List.filter (fun j => decide (j.1 ≤ t)) rest := by
          simp [List.filter_cons, hj]
        rw [hfil, List.map_cons, List.getLastD_cons]
      · rw [if_neg hj, ih init]
        have hfil : List.filter (fun j => decide (j.1 ≤ t)) (j :: rest) =
            List.filter (fun j => decide (j.1 ≤ t)) rest := by
          simp [List.filter_cons, hj]
        rw [hfil]

lemma recordAt_mostRecent (init : Pop) (t : ℚ) :
    ∀ jumps : List (ℚ × Pop),
      List.Pairwise (· ≤ ·) (jumps.map Prod.fst) →
      (recordAt init jumps t = init ∧ ∀ j ∈ jumps, t < j.1) ∨
      (∃ j ∈ jumps, j.1 ≤ t ∧ recordAt init jumps t = j.2 ∧
        ∀ j' ∈ jumps, j'.1 ≤ t → j'.1 ≤ j.1) := by
  intro jumps
  induction jumps using List.reverseRecOn with
  | nil => intro _; left; exact ⟨rfl, by simp⟩
  | append_singleton l x ih =>
      intro hpw
      rw [List.map_append] at hpw
      have hl : List.Pairwise (· ≤ ·) (l.map Prod.fst) :=
        (List.pairwise_append.mp hpw).1
      have hbound : ∀ j ∈ l, j.1 ≤ x.1 := by
        intro j hj
        exact (List.pairwise_append.mp hpw).2.2 j.1
          (List.mem_map_of_mem _ hj) x.1 (by simp)
      have hrec : recordAt init (l ++ [x]) t =
          if x.1 ≤ t then x.2 else recordAt init l t := by
        simp [recordAt, List.foldl_append]
      by_cases hx : x.1 ≤ t
      · right
        refine ⟨x, by simp, hx, by rw [hrec, if_pos hx], ?_⟩
        intro j' hj' _
        rcases List.mem_append.mp hj' with h | h
        · exact hbound j' h
        · simp only [List.mem_singleton] at h
          rw [h]
      · rcases ih hl with ⟨heq, hall⟩ | ⟨j, hjmem, hjle, heq, hmax⟩
        · left
          refine ⟨by rw [hrec, if_neg hx]; exact heq, ?_⟩
          intro j hj
          rcases List.mem_append.mp hj with h | h
          · exact hall j h
          · simp only [List.mem_singleton] at h
            rw [h]
            exact lt_of_not_le hx
        · right
          refine ⟨j, List.mem_append_left _ hjmem, hjle,
            by rw [hrec, if_neg hx]; exact heq, ?_⟩
          intro j' hj' hle'
          rcases List.mem_append.mp hj' with h | h
          · exact hmax j' h hle'
          · simp only [List.mem_singleton] at h
            rw [h] at hle'
            exact absurd hle' hx

/-- C5: for jump records with ascending times and any sample grid, the
recorder holds the initial values at sample times before the first jump and
otherwise outputs the value of the most recent jump record with time at
most the sample time (filling forward across skipped sample points); on the
concrete scenario with jumps at times 0, 2.3 and 5.1 and grid 0..6 the
recorded series is the forward fill, and the sample at time 3 equals the
value set at time 2.3. -/
theorem recorder_last_value_held :
    (∀ (init : Pop) (jumps : List (ℚ × Pop)) (grid : List ℚ) (t : ℚ),
      List.Pairwise (· ≤ ·) (jumps.map Prod.fst) → t ∈ grid →
      resample init jumps grid = grid.map (recordAt init jumps) ∧
      ((recordAt init jumps t = init ∧ ∀ j ∈ jumps, t < j.1) ∨
       (∃ j ∈ jumps, j.1 ≤ t ∧ recordAt init jumps t = j.2 ∧
         ∀ j' ∈ jumps, j'.1 ≤ t → j'.1 ≤ j.1))) ∧
    resample initPop exJumps exGrid =
      [initPop, initPop, initPop, exP1, exP1, exP1, exP2] ∧
    recordAt initPop exJumps 3 = exP1 := by
  refine ⟨?_, ?_, ?_⟩
  · intro init jumps grid t hpw _
    exact ⟨rfl, recordAt_mostRecent init t jumps hpw⟩
  · norm_num [resample, exGrid, exJumps, recordAt]
  · norm_num [exJumps, recordAt]

/-- Witness for C5 at concrete inputs: the example jump records and grid,
with sample time 3. -/
theorem recorder_last_value_held_witness :
    resample initPop exJumps exGrid = exGrid.map (recordAt initPop exJumps) ∧
    ((recordAt initPop exJumps 3 = initPop ∧ ∀ j ∈ exJumps, (3 : ℚ) < j.1) ∨
     (∃ j ∈ exJumps, j.1 ≤ 3 ∧ recordAt initPop exJumps 3 = j.2 ∧
       ∀ j' ∈ exJumps, j'.1 ≤ 3 → j'.1 ≤ j.1)) :=
  recorder_last_value_held.1 initPop exJumps exGrid 3
    (by norm_num [exJumps, List.pairwise_cons]) (by norm_num [exGrid])

/-- C7: running the ensemble twice with the same overall seed yields
identical results, and the trajectory at every realization index is a
function of the seed derived deterministically for that index alone (the
per-realization random sources are derived from the overall seed and are
never shared across realizations). -/
theorem ensemble_seed_determinism :
    (∀ s₁ s₂ : ℕ, s₁ = s₂ → runEnsemble s₁ = runEnsemble s₂) ∧
    (∀ seed i : ℕ, i < REALIZATIONS →
      (runEnsemble seed)[i]? = some (realize (deriveSeed seed i))) := by
  constructor
  · intro s₁ s₂ h
    rw [h]
  · intro seed i hi
    simp [runEnsemble, List.getElem?_map, List.getElem?_range, hi]

/-- Witness for C7 at concrete inputs: overall seed 0 and realization 0. -/
theorem ensemble_seed_determinism_witness :
    runEnsemble 0 = runEnsemble 0 ∧
    (runEnsemble 0)[0]? = some (realize (deriveSeed 0 0)) :=
  ⟨ensemble_seed_determinism.1 0 0 rfl,
   ensemble_seed_determinism.2 0 0 (by norm_num [REALIZATIONS])⟩

/-- C8 counterexample: the distancing event is declared persistent in the
source (persistent=True on the trigger), contradicting the claim that it is
non-persistent; and under the edge-triggered scheduler a persistent event
re-arms, so along the oscillating symptomatic series 150, 50, 150 it fires
twice, not exactly once. -/
theorem distancing_event_not_one_shot_counterexample :
    siaEvent.persistent = true ∧
    schedFireCount siaEvent initSched [150, 50, 150] = 2 :=
  ⟨rfl, rfl⟩

lemma schedStep_ki_absorbed (st : SchedState) (y : ℤ) (h : st.ki = KiDistanced) :
    ((schedStep siaEvent st y).1).ki = KiDistanced := by
  simp [schedStep, siaEvent, h]

lemma kiTraceFrom_absorbed :
    ∀ (ys : List ℤ) (st : SchedState), st.ki = KiDistanced →
      kiTraceFrom siaEvent st ys = List.replicate ys.length KiDistanced := by
  intro ys
  induction ys with
  | nil => intro st _; rfl
  | cons y ys ih =>
      intro st h
      have h' := schedStep_ki_absorbed st y h
      simp [kiTraceFrom, h', ih _ h', List.replicate_succ]

lemma schedFires_sia (st : SchedState) (y : ℤ) :
    schedFires siaEvent st y = (siaTrigger y && !st.prev) := by
  simp [schedFires, siaEvent]

lemma kiTraceFrom_shape :
    ∀ (ys : List ℤ) (st : SchedState), st.ki = Ki0 →
      ∃ k m, kiTraceFrom siaEvent st ys =
          List.replicate k Ki0 ++ List.replicate m KiDistanced ∧
        k + m = ys.length ∧
        ((st.prev = false ∧ ∃ y ∈ ys, siaTrigger y = true) → 1 ≤ m) := by
  intro ys
  induction ys with
  | nil =>
      intro st h
      refine ⟨0, 0, rfl, rfl, ?_⟩
      rintro ⟨_, y, hy, _⟩
      cases hy
  | cons y ys ih =>
      intro st h
      by_cases hf : schedFires siaEvent st y = true
      · have hki : ((schedStep siaEvent st y).1).ki = KiDistanced := by
          have hdef : ((schedStep siaEvent st y).1).ki =
              (if schedFires siaEvent st y then siaEvent.assignedKi else st.ki) := rfl
          rw [hdef, hf]
          rfl
        refine ⟨0, ys.length + 1, ?_, by simp, fun _ => by omega⟩
        simp [kiTraceFrom, hki, kiTraceFrom_absorbed ys _ hki, List.replicate_succ]
      · have hfneg : schedFires siaEvent st y = false := by
          cases hfc : schedFires siaEvent st y
          · rfl
          · exact absurd hfc hf
        have hki : ((schedStep siaEvent st y).1).ki = Ki0 := by
          have hdef : ((schedStep siaEvent st y).1).ki =
              (if schedFires siaEvent st y then siaEvent.assignedKi else st.ki) := rfl
          rw [hdef, hfneg]
          simpa using h
        obtain ⟨k, m, htr, hlen, hcond⟩ := ih (schedStep siaEvent st y).1 hki
        refine ⟨k + 1, m, ?_, by simp [← hlen]; omega, ?_⟩
        · simp [kiTraceFrom, hki, htr, List.replicate_succ]
        · rintro ⟨hprev, y', hy', htrig⟩
          have hytrig : siaTrigger y = false := by
            rw [schedFires_sia, hprev] at hfneg
            simpa using hfneg
          have hy'mem : y' ∈ ys := by
            rcases List.mem_cons.mp hy' with heq | hmem
            · rw [heq] at htrig
              rw [htrig] at hytrig
              exact Bool.noConfusion hytrig
            · exact hmem
          refine hcond ⟨?_, y', hy'mem, htrig⟩
          exact hytrig

lemma countChanges_cons_cons (a : ℚ) (l : List ℚ) :
    countChanges (a :: a :: l) = countChanges (a :: l) := by
  simp [countChanges]

lemma countChanges_replicate (n : ℕ) (a : ℚ) :
    countChanges (List.replicate n a) = 0 := by
  induction n with
  | zero => rfl
  | succ n ih =>
      cases n with
      | zero => rfl
      | succ m =>
          rw [List.replicate_succ, List.replicate_succ, countChanges_cons_cons,
            ← List.replicate_succ]
          exact ih

lemma countChanges_cons_replicate_ne (a b : ℚ) (h : a ≠ b) (m : ℕ) :
    countChanges (a :: List.replicate (m + 1) b) = 1 := by
  have h2 : countChanges (b :: List.replicate m b) = 0 := by
    rw [← List.replicate_succ]
    exact countChanges_replicate (m + 1) b
  rw [List.replicate_succ]
  simp [countChanges, h, h2]

lemma countChanges_rep_append (a b : ℚ) (k m : ℕ) (hk : 1 ≤ k) :
    countChanges (List.replicate k a ++ List.replicate m b) =
      countChanges (a :: List.replicate m b) := by
  induction k with
  | zero => omega
  | succ k ih =>
      cases k with
      | zero => simp
      | succ k' =>
          rw [List.replicate_succ, List.cons_append, List.replicate_succ,
            List.cons_append, countChanges_cons_cons, ← List.cons_append,
            ← List.replicate_succ]
          exact ih (by omega)

lemma Ki0_ne_KiDistanced : Ki0 ≠ KiDistanced := by
  norm_num [Ki0, KiDistanced, R0, MEAN_INFECTIOUS_PERIOD]

/-- C8 amended: the distancing event is persistent and fires on each upward
edge-crossing of its trigger symptomatic > 100, but every firing assigns Ki
the same constant 2/15, so the Ki series of a realization never contains
more than one change of value, and in every realization whose symptomatic
population exceeds 100 at some evaluation point it contains exactly one. -/
theorem distancing_ki_changes_once_amended :
    ∀ ys : List ℤ,
      countChanges (kiTrace ys) ≤ 1 ∧
      ((∃ y ∈ ys, siaTrigger y = true) → countChanges (kiTrace ys) = 1) := by
  intro ys
  obtain ⟨k, m, htr, hlen, hcond⟩ := kiTraceFrom_shape ys initSched rfl
  have htrace : kiTrace ys =
      List.replicate (k + 1) Ki0 ++ List.replicate m KiDistanced := by
    simp [kiTrace, htr, List.replicate_succ]
  constructor
  · rw [htrace, countChanges_rep_append Ki0 KiDistanced (k + 1) m (by omega)]
    cases m with
    | zero => simp [countChanges]
    | succ m' =>
        rw [countChanges_cons_replicate_ne Ki0 KiDistanced Ki0_ne_KiDistanced m']
  · intro hex
    have hm : 1 ≤ m := hcond ⟨rfl, hex⟩
    rw [htrace, countChanges_rep_append Ki0 KiDistanced (k + 1) m (by omega)]
    cases m with
    | zero => omega
    | succ m' =>
        exact countChanges_cons_replicate_ne Ki0 KiDistanced Ki0_ne_KiDistanced m'

/-- Witness for the amended C8: a realization whose symptomatic population
reaches 150 at its single evaluation point has exactly one Ki change. -/
theorem distancing_ki_changes_once_amended_witness :
    countChanges (kiTrace [150]) = 1 :=
  (distancing_ki_changes_once_amended [150]).2 ⟨150, List.mem_singleton_self 150, rfl⟩

end Distancing
